import Mathlib

/-!
Verification of the sentio indicator time-series engine.

This file gives a shallow embedding of the numerical core of the backend:

* `backend/app/generators/rating_patterns.py` (`RatingPatternGenerator`):
  baseline resolution, the five trajectory archetypes, noise/clamp/round
  post-processing, and the multi-indicator history generator.  Gaussian and
  uniform random draws are modelled as explicit input streams, with
  `random.gauss(0, sigma)` embedded as `sigma * z i` for a standard-normal
  stream `z`.
* `backend/mcp_server/tools/assessments.py` (`impulse_history_get`): the pure
  analysis of the assessment rows after they have been read from the database
  in descending `assessed_at` order (most recent first).  Python dicts are
  embedded as insertion-ordered association lists, Python's stable `sort` as a
  stable insertion sort, and `round(x, 1)` as exact half-to-even rounding at
  one decimal over an ordered field.
* `backend/app/factories/stakeholder.py` (`create_impulse_history`): the
  sample-date offsets, with Python's `int()` truncation made explicit.

Ratings coming from the database are integers stored as numbers; the analyzer
is embedded over `ℚ` (all its arithmetic is exact rational arithmetic on the
inputs).  The synthesizer uses `tanh`/`sin`, so it is embedded over `ℝ`.
-/

namespace Sentio

/-! ### Python semantics helpers -/

section PyHelpers

variable {α : Type} [LinearOrderedField α] [FloorRing α] {β : Type}

/-- Python `round` ties-to-even on an exact value: the integer nearest to `x`,
with halves going to the even neighbour. -/
def roundHE (x : α) : ℤ :=
  if Int.fract x < 1 / 2 then ⌊x⌋
  else if 1 / 2 < Int.fract x then ⌊x⌋ + 1
  else if Even ⌊x⌋ then ⌊x⌋ else ⌊x⌋ + 1

/-- Python `round(x, 1)`: round half-to-even at one decimal. -/
def pyRound1 (x : α) : α := ((roundHE (10 * x) : ℤ) : α) / 10

/-- Python `int()` on a float: truncation toward zero. -/
def pyInt (q : ℚ) : ℤ := if q < 0 then -⌊-q⌋ else ⌊q⌋

/-- The clamp `max(1.0, min(10.0, x))` used on every synthesized rating. -/
def clampRating (x : α) : α := max 1 (min 10 x)

/-- Lookup in an insertion-ordered association list (Python `dict` access /
`dict.get`). -/
def alistGet? (k : String) : List (String × β) → Option β
  | [] => none
  | p :: ps => if p.1 = k then some p.2 else alistGet? k ps

/-- Python `d[k] = v`: overwrite in place if the key is present (keeping its
position), else append at the end. -/
def pyInsert (d : List (String × β)) (k : String) (v : β) : List (String × β) :=
  if d.any (fun p => decide (p.1 = k)) then
    d.map (fun p => if p.1 = k then (k, v) else p)
  else d ++ [(k, v)]

/-- Python `d.setdefault(k, []).append(v)`: append `v` to the bucket at `k`,
creating the bucket if absent. -/
def bucketAdd (d : List (String × List β)) (k : String) (v : β) :
    List (String × List β) :=
  if d.any (fun p => decide (p.1 = k)) then
    d.map (fun p => if p.1 = k then (p.1, p.2 ++ [v]) else p)
  else d ++ [(k, [v])]

end PyHelpers

/-- Stable insert for `sortBy`: `a` is placed before the first element `b`
that does not satisfy `lt b a`. -/
def insertBy {α : Type} (lt : α → α → Prop) [DecidableRel lt] (a : α) :
    List α → List α
  | [] => [a]
  | b :: bs => if lt b a then b :: insertBy lt a bs else a :: b :: bs

/-- Stable sort with respect to the strict comparison `lt` (this is the
unique stable sort, hence the embedding of Python's `list.sort`/`sorted`). -/
def sortBy {α : Type} (lt : α → α → Prop) [DecidableRel lt] (l : List α) :
    List α :=
  l.foldr (insertBy lt) []

/-- Lexicographic comparison of character lists by code point. -/
def charListLt : List Char → List Char → Bool
  | [], [] => false
  | [], _ :: _ => true
  | _ :: _, [] => false
  | a :: as, b :: bs =>
    if a.toNat < b.toNat then true
    else if b.toNat < a.toNat then false
    else charListLt as bs

/-- Python `<` on strings: lexicographic by code point. -/
def pyStrLt (a b : String) : Bool := charListLt a.data b.data

/-! ### PatternSynthesizer: `RatingPatternGenerator` (rating_patterns.py) -/

noncomputable section Synth

/-- `GROUP_BASELINES`: base ratings for each stakeholder group type. -/
def GROUP_BASELINES : List (String × ℝ) :=
  [("fuehrungskraefte", 6.5), ("multiplikatoren", 6.0), ("mitarbeitende", 5.5)]

/-- `INDICATOR_MODIFIERS`: difficulty modifiers for indicators. -/
def INDICATOR_MODIFIERS : List (String × ℝ) :=
  [("orientierung_sinn", 0.0), ("psychologische_sicherheit", -0.5),
   ("empowerment", -0.3), ("partizipation", 0.0), ("wertschaetzung", 0.2),
   ("ressourcenfreigabe", -0.4), ("aktive_kommunikation", 0.1),
   ("widerstandsmanagement", -0.5), ("vorbildfunktion", 0.3)]

/-- `get_base_rating`: group baseline plus indicator modifier, clamped. -/
def get_base_rating (group_type indicator_key : String) : ℝ :=
  max 1 (min 10 ((alistGet? group_type GROUP_BASELINES).getD 6.0 +
    (alistGet? indicator_key INDICATOR_MODIFIERS).getD 0.0))

/-- Shape value of `_honeymoon_dip_recovery` at point `i` of `n`. -/
def honeymoon_val (n : ℕ) (base : ℝ) (i : ℕ) : ℝ :=
  let progress : ℝ := (i : ℝ) / ((max 1 (n - 1) : ℕ) : ℝ)
  if progress < 0.15 then base + 1.5 - progress / 0.15 * 0.5
  else if progress < 0.45 then base + 1.0 - (progress - 0.15) / 0.30 * 2.5
  else base - 1.5 + (progress - 0.45) / 0.55 * 2.0

/-- `_honeymoon_dip_recovery`. -/
def honeymoon_dip_recovery (n : ℕ) (base : ℝ) : List ℝ :=
  (List.range n).map (honeymoon_val n base)

/-- Shape value of `_steady_improvement` at point `i` of `n`. -/
def steady_val (n : ℕ) (base : ℝ) (i : ℕ) : ℝ :=
  let progress : ℝ := (i : ℝ) / ((max 1 (n - 1) : ℕ) : ℝ)
  let curved : ℝ := 0.5 * (1 + Real.tanh ((progress - 0.5) * 3))
  base - 0.5 + curved * 2.0

/-- `_steady_improvement`. -/
def steady_improvement (n : ℕ) (base : ℝ) : List ℝ :=
  (List.range n).map (steady_val n base)

/-- Shape value of `_struggle_then_improve` at point `i` of `n`. -/
def struggle_val (n : ℕ) (base : ℝ) (i : ℕ) : ℝ :=
  let progress : ℝ := (i : ℝ) / ((max 1 (n - 1) : ℕ) : ℝ)
  if progress < 0.6 then base - 1.5 + progress * 0.5
  else base - 1.0 + (progress - 0.6) / 0.4 * 2.5

/-- `_struggle_then_improve`. -/
def struggle_then_improve (n : ℕ) (base : ℝ) : List ℝ :=
  (List.range n).map (struggle_val n base)

/-- Shape value of `_volatile` at point `i` of `n`. -/
def volatile_val (n : ℕ) (base : ℝ) (i : ℕ) : ℝ :=
  let progress : ℝ := (i : ℝ) / ((max 1 (n - 1) : ℕ) : ℝ)
  let wave1 : ℝ := Real.sin (progress * 4 * Real.pi) * 1.0
  let wave2 : ℝ := Real.sin (progress * 2.5 * Real.pi + 1) * 0.5
  base + wave1 + wave2

/-- `_volatile`. -/
def volatile (n : ℕ) (base : ℝ) : List ℝ :=
  (List.range n).map (volatile_val n base)

/-- Shape value of `_declining` at point `i` of `n`. -/
def declining_val (n : ℕ) (base : ℝ) (i : ℕ) : ℝ :=
  let progress : ℝ := (i : ℝ) / ((max 1 (n - 1) : ℕ) : ℝ)
  base + 0.5 - progress * progress * 2.5

/-- `_declining`. -/
def declining (n : ℕ) (base : ℝ) : List ℝ :=
  (List.range n).map (declining_val n base)

/-- Dispatch on `pattern_type` in `generate_pattern`; unrecognized types fall
back to a flat list at the baseline. -/
def shapeValues (pattern_type : String) (num_points : ℕ) (base : ℝ) :
    List ℝ :=
  if pattern_type = "honeymoon_dip_recovery" then
    honeymoon_dip_recovery num_points base
  else if pattern_type = "steady_improvement" then
    steady_improvement num_points base
  else if pattern_type = "struggle_then_improve" then
    struggle_then_improve num_points base
  else if pattern_type = "volatile" then volatile num_points base
  else if pattern_type = "declining" then declining num_points base
  else List.replicate num_points base

/-- The `for v in values` noise loop of `generate_pattern`: add
`gauss(0, noise_level) = noise_level * z i` to the value at index `i`, clamp
to `[1, 10]` and round to one decimal.  `i` is the index of the next draw in
the standard-normal stream `z`. -/
def addNoise (noise_level : ℝ) (z : ℕ → ℝ) : ℕ → List ℝ → List ℝ
  | _, [] => []
  | i, v :: vs =>
    pyRound1 (clampRating (v + noise_level * z i)) :: addNoise noise_level z (i + 1) vs

/-- `RatingPatternGenerator.generate_pattern`, with the Gaussian draws made
explicit as the standard-normal stream `z`. -/
def generate_pattern (pattern_type : String) (num_points : ℕ)
    (group_type indicator_key : String) (noise_level : ℝ) (z : ℕ → ℝ) :
    List ℝ :=
  addNoise noise_level z 0
    (shapeValues pattern_type num_points (get_base_rating group_type indicator_key))

/-- `RatingPatternGenerator.generate_assessment_history`, with the uniform
draw for indicator `j` made explicit as `u j` (supported on `[-0.1, 0.1]`)
and the Gaussian stream for indicator `j` as `z j`. -/
def generate_assessment_history (pattern_type : String) (num_impulses : ℕ)
    (group_type : String) (indicator_keys : List String) (noise_level : ℝ)
    (u : ℕ → ℝ) (z : ℕ → ℕ → ℝ) : List (String × List ℝ) :=
  indicator_keys.enum.foldl
    (fun h p =>
      pyInsert h p.2
        (generate_pattern pattern_type num_impulses group_type p.2
          (max 0.1 (noise_level + u p.1)) (z p.1)))
    []

end Synth

/-! ### ImpulseAggregator / TrendAnalyzer: `impulse_history_get`
(mcp_server/tools/assessments.py), pure part after the database read.

The input list is the rows of `stakeholder_assessments` for one group,
ordered by `assessed_at` descending (most recent first), exactly as the
SQL query returns them. -/

/-- One row of `stakeholder_assessments` as consumed by
`impulse_history_get`: `indicator_key`, `rating` (nullable) and the ISO
`assessed_at` timestamp string. -/
structure Assessment where
  indicator_key : String
  rating : Option ℚ
  assessed_at : String
deriving DecidableEq

/-- One entry of the `weak_indicators` output list. -/
structure WeakIndicator where
  key : String
  name : String
  rating : ℚ
deriving DecidableEq

/-- One entry of the `impulse_dates` output list. -/
structure ImpulseOut where
  date : String
  assessment_count : ℕ
  average_rating : Option ℚ
  ratings : List (String × Option ℚ)
deriving DecidableEq

/-- The analyzer's output (the analysis fields of the JSON object built by
`impulse_history_get`; the group metadata fields are copied from the group
row and are not part of the analysis). -/
structure TrendSummary where
  total_assessments : ℕ
  impulse_dates : List ImpulseOut
  average_rating : Option ℚ
  trend : String
  weak_indicators : List WeakIndicator
  indicator_averages : List (String × ℚ)
deriving DecidableEq

/-- The indicator catalog (`constants.py`): key to display name, core
indicators first, then the Fuehrungskraefte indicators, in declaration
order (the scan order of `get_indicator_by_key`). -/
def INDICATOR_NAMES : List (String × String) :=
  [("orientierung_sinn", "Orientierung & Sinn"),
   ("psychologische_sicherheit", "Psychologische Sicherheit"),
   ("empowerment", "Empowerment"),
   ("partizipation", "Partizipation"),
   ("wertschaetzung", "Wertschaetzung"),
   ("ressourcenfreigabe", "Ressourcenfreigabe"),
   ("aktive_kommunikation", "Aktive Kommunikation"),
   ("widerstandsmanagement", "Widerstandsmanagement"),
   ("vorbildfunktion", "Vorbildfunktion")]

/-- `get_indicator_by_key(key)["name"] if indicator else key`. -/
def get_indicator_name (key : String) : String :=
  (alistGet? key INDICATOR_NAMES).getD key

/-- `assessment["assessed_at"][:10] if assessment["assessed_at"] else
"unknown"`: the calendar-date prefix of the timestamp. -/
def dateOf (a : Assessment) : String :=
  if a.assessed_at = "" then "unknown" else ⟨a.assessed_at.data.take 10⟩

/-- The `impulses_by_date` grouping loop: bucket each row under its date,
in scan order. -/
def impulsesByDate (assessments : List Assessment) :
    List (String × List Assessment) :=
  assessments.foldl (fun d a => bucketAdd d (dateOf a) a) []

/-- The `indicator_values` loop: record the key (even when the rating is
null) and append each non-null rating, in scan order. -/
def addIndicatorValue (d : List (String × List ℚ)) (a : Assessment) :
    List (String × List ℚ) :=
  let d1 :=
    if d.any (fun p => decide (p.1 = a.indicator_key)) then d
    else d ++ [(a.indicator_key, [])]
  match a.rating with
  | none => d1
  | some r =>
    d1.map (fun p => if p.1 = a.indicator_key then (p.1, p.2 ++ [r]) else p)

/-- `indicator_values` after the whole scan. -/
def indicatorRatingLists (assessments : List Assessment) :
    List (String × List ℚ) :=
  assessments.foldl addIndicatorValue []

/-- One step of the `for key, values in indicator_values.items()` loop:
skip empty value lists, otherwise extend `indicator_averages` with the
rounded average and, when the (unrounded) average is below 6, extend
`weak_indicators`. -/
def iaStep (acc : List (String × ℚ) × List WeakIndicator)
    (p : String × List ℚ) : List (String × ℚ) × List WeakIndicator :=
  if p.2 = [] then acc
  else
    let avg : ℚ := p.2.sum / (p.2.length : ℚ)
    (acc.1 ++ [(p.1, pyRound1 avg)],
     if avg < 6 then
       acc.2 ++ [⟨p.1, get_indicator_name p.1, pyRound1 avg⟩]
     else acc.2)

/-- `indicator_averages` together with the unsorted `weak_indicators`. -/
def iaWeakPair (ivs : List (String × List ℚ)) :
    List (String × ℚ) × List WeakIndicator :=
  ivs.foldl iaStep ([], [])

/-- `all_ratings`: the non-null ratings, most recent first. -/
def allRatings (assessments : List Assessment) : List ℚ :=
  assessments.filterMap (fun a => a.rating)

/-- `recent_avg`: mean of the first `mid = len // 2` ratings. -/
def recent_avg (rs : List ℚ) : ℚ :=
  (rs.take (rs.length / 2)).sum / ((rs.length / 2 : ℕ) : ℚ)

/-- `older_avg`: mean of the remaining ratings. -/
def older_avg (rs : List ℚ) : ℚ :=
  (rs.drop (rs.length / 2)).sum / ((rs.length - rs.length / 2 : ℕ) : ℚ)

/-- The trend classification of `impulse_history_get`: `"stable"` below 4
ratings, otherwise compare the average of the most recent half against the
average of the older half with a 0.5 hysteresis band. -/
def computeTrend (rs : List ℚ) : String :=
  if 4 ≤ rs.length then
    if older_avg rs + 0.5 < recent_avg rs then "up"
    else if recent_avg rs < older_avg rs - 0.5 then "down"
    else "stable"
  else "stable"

/-- `round(v, 1) if v else None`: Python's truthiness sends both `None` and
`0` to `None`. -/
def pyRoundTruthy (o : Option ℚ) : Option ℚ :=
  match o with
  | none => none
  | some v => if v = 0 then none else some (pyRound1 v)

/-- The `ratings` dict comprehension of one impulse entry: last write wins,
iterating the bucket in scan order (most recent first). -/
def ratingsDict (bucket : List Assessment) : List (String × Option ℚ) :=
  bucket.foldl (fun d a => pyInsert d a.indicator_key a.rating) []

/-- One entry of `impulse_dates` for the date `ds`. -/
def buildImpulse (ibd : List (String × List Assessment)) (ds : String) :
    ImpulseOut :=
  let bucket := (alistGet? ds ibd).getD []
  let ratings := bucket.filterMap (fun a => a.rating)
  { date := ds
  , assessment_count := bucket.length
  , average_rating :=
      pyRoundTruthy
        (if ratings = [] then none else some (ratings.sum / (ratings.length : ℚ)))
  , ratings := ratingsDict bucket }

/-- Comparison used to sort `weak_indicators` ascending by `rating`. -/
def weakLt (x y : WeakIndicator) : Prop := x.rating < y.rating

instance : DecidableRel weakLt := fun x y => by
  unfold weakLt; infer_instance

/-- Comparison used by `sorted(keys, reverse=True)`: `b` stays in front of
`a` exactly when `b` is the larger string. -/
def strGt (b a : String) : Prop := pyStrLt a b = true

instance : DecidableRel strGt := fun b a => by
  unfold strGt; infer_instance

/-- The body of `impulse_history_get` on a nonempty assessment list. -/
def analyzeBody (assessments : List Assessment) : TrendSummary :=
  let ibd := impulsesByDate assessments
  let pair := iaWeakPair (indicatorRatingLists assessments)
  let rs := allRatings assessments
  let overall : Option ℚ :=
    if rs = [] then none else some (rs.sum / (rs.length : ℚ))
  { total_assessments := assessments.length
  , impulse_dates :=
      ((sortBy strGt (ibd.map Prod.fst)).take 10).map (buildImpulse ibd)
  , average_rating := pyRoundTruthy overall
  , trend := computeTrend rs
  , weak_indicators := (sortBy weakLt pair.2).take 5
  , indicator_averages := pair.1 }

/-- The pure analysis of `impulse_history_get`: the empty input short
circuit, then the full computation. -/
def analyze (assessments : List Assessment) : TrendSummary :=
  match assessments with
  | [] =>
      { total_assessments := 0, impulse_dates := [], average_rating := none
      , trend := "stable", weak_indicators := [], indicator_averages := [] }
  | a :: rest => analyzeBody (a :: rest)

/-! ### HistoryAssembler: `create_impulse_history` (factories/stakeholder.py) -/

/-- `days_between`: `start_days_ago / (num_impulses - 1)` under Python float
division, or `0` for a single impulse. -/
def days_between (num_impulses start_days_ago : ℕ) : ℚ :=
  if 1 < num_impulses then
    (start_days_ago : ℚ) / ((num_impulses - 1 : ℕ) : ℚ)
  else 0

/-- `days_offset = int(i * days_between)` for each impulse index: the
sample date of impulse `i` is `base_date + days_offset` days, where
`base_date = utcnow() - start_days_ago` days
(`generate_timestamp_from_base` adds exactly whole days). -/
def impulse_day_offsets (num_impulses start_days_ago : ℕ) : List ℤ :=
  (List.range num_impulses).map
    (fun i : ℕ => pyInt ((i : ℚ) * days_between num_impulses start_days_ago))

/-! ### Specification-side definitions (for refinement statements)

`specWeakIndicators` renders §4.4 step 3 of the spec as amended: entries
whose exact (unrounded) per-indicator average is below 6, enriched with the
display name and the average rounded to one decimal, sorted ascending by the
rounded rating, truncated to the five weakest. -/

/-- The exact (unrounded) per-indicator averages, keys in first-appearance
order, indicators with no non-null rating omitted. -/
def unroundedAverages (assessments : List Assessment) : List (String × ℚ) :=
  (indicatorRatingLists assessments).filterMap
    (fun p =>
      if p.2 = [] then none else some (p.1, p.2.sum / (p.2.length : ℚ)))

/-- Spec-side weak indicator list (see section comment above). -/
def specWeakIndicators (assessments : List Assessment) : List WeakIndicator :=
  (sortBy weakLt
      (((unroundedAverages assessments).filter (fun q => decide (q.2 < 6))).map
        (fun q => ⟨q.1, get_indicator_name q.1, pyRound1 q.2⟩))).take 5

/-- Whether one `indicator_values` entry contributes a weak indicator:
nonempty rating list whose exact average is below 6. -/
def weakPred (p : String × List ℚ) : Bool :=
  decide (¬p.2 = [] ∧ p.2.sum / (p.2.length : ℚ) < 6)

/-- The weak-indicator record built from one `indicator_values` entry. -/
def weakEnrich (p : String × List ℚ) : WeakIndicator :=
  ⟨p.1, get_indicator_name p.1, pyRound1 (p.2.sum / (p.2.length : ℚ))⟩

/-! ### Concrete inputs used by witnesses and counterexamples -/

/-- Six ratings, most recent first: recent half averages 9, older half 1. -/
def recsTrendUp : List Assessment :=
  [⟨"a", some 9, "2024-01-06T00:00:00"⟩, ⟨"a", some 9, "2024-01-05T00:00:00"⟩,
   ⟨"a", some 9, "2024-01-04T00:00:00"⟩, ⟨"a", some 1, "2024-01-03T00:00:00"⟩,
   ⟨"a", some 1, "2024-01-02T00:00:00"⟩, ⟨"a", some 1, "2024-01-01T00:00:00"⟩]

/-- Seven rows over six indicators, all with averages below 6
(`a ↦ 5, b ↦ 4, c ↦ 3, d ↦ 2, e ↦ 1, f ↦ 3/2`). -/
def recsSixWeak : List Assessment :=
  [⟨"a", some 5, "2024-03-03T00:00:00"⟩, ⟨"b", some 4, "2024-03-03T00:00:00"⟩,
   ⟨"c", some 3, "2024-03-03T00:00:00"⟩, ⟨"d", some 2, "2024-03-03T00:00:00"⟩,
   ⟨"e", some 1, "2024-03-03T00:00:00"⟩, ⟨"f", some 1, "2024-03-03T00:00:00"⟩,
   ⟨"f", some 2, "2024-03-03T00:00:00"⟩]

/-- Two rows on the same calendar date for the same indicator, most recent
first: the later-timestamped row carries rating 9, the earlier one 3. -/
def recsSameDay : List Assessment :=
  [⟨"k", some 9, "2024-01-01T12:00:00"⟩, ⟨"k", some 3, "2024-01-01T08:00:00"⟩]

/-- A single assessment row. -/
def recsSingle : List Assessment := [⟨"k", some 7, "2024-02-02T10:00:00"⟩]

/-- The impulse entry `analyze recsSingle` produces. -/
def impSingle : ImpulseOut := ⟨"2024-02-02", 1, some 7, [("k", some 7)]⟩

/-- An all-zero uniform stream. -/
def uZero : ℕ → ℝ := fun _ => 0

/-- An all-zero family of Gaussian streams. -/
def zZero : ℕ → ℕ → ℝ := fun _ _ => 0

/-- The single entry produced by
`generate_assessment_history "flat" 1 "g" ["a"] 0 uZero zZero`. -/
noncomputable def flatEntry : String × List ℝ :=
  ("a", generate_pattern "flat" 1 "g" "a" (max 0.1 (0 + uZero 0)) (zZero 0))

/-! ### Lemmas on rounding and clamping -/

section RoundLemmas

variable {α : Type} [LinearOrderedField α] [FloorRing α]

lemma floor_le_roundHE (x : α) : ⌊x⌋ ≤ roundHE x := by
  unfold roundHE; split_ifs <;> omega

lemma roundHE_le_floor_add_one (x : α) : roundHE x ≤ ⌊x⌋ + 1 := by
  unfold roundHE; split_ifs <;> omega

lemma intCast_le_roundHE {m : ℤ} {x : α} (h : (m : α) ≤ x) : m ≤ roundHE x :=
  le_trans (Int.le_floor.mpr h) (floor_le_roundHE x)

lemma roundHE_le_intCast {m : ℤ} {x : α} (h : x ≤ (m : α)) : roundHE x ≤ m := by
  have hfm : ⌊x⌋ ≤ m := by
    have := Int.floor_le_floor h
    rwa [Int.floor_intCast] at this
  have hkey : Int.fract x ≠ 0 → ⌊x⌋ + 1 ≤ m := by
    intro hf
    rcases eq_or_lt_of_le hfm with he | hl
    · exfalso
      apply hf
      have h1 : x ≤ (⌊x⌋ : α) := by rw [he]; exact h
      have h2 : (⌊x⌋ : α) ≤ x := Int.floor_le x
      have hfd : Int.fract x = x - (⌊x⌋ : α) := rfl
      linarith
    · omega
  unfold roundHE
  split_ifs with h1 h2 h3
  · exact hfm
  · exact hkey (by positivity)
  · exact hfm
  · have : Int.fract x = 1 / 2 := le_antisymm (not_lt.mp h2) (not_lt.mp h1)
    exact hkey (by rw [this]; norm_num)

lemma roundHE_mono {x y : α} (h : x ≤ y) : roundHE x ≤ roundHE y := by
  rcases lt_or_le ⌊x⌋ ⌊y⌋ with hf | hf
  · calc roundHE x ≤ ⌊x⌋ + 1 := roundHE_le_floor_add_one x
      _ ≤ ⌊y⌋ := by omega
      _ ≤ roundHE y := floor_le_roundHE y
  · have hfe : ⌊x⌋ = ⌊y⌋ := le_antisymm (Int.floor_le_floor h) hf
    have hfr : Int.fract x ≤ Int.fract y := by
      unfold Int.fract
      rw [hfe]
      linarith
    unfold roundHE
    rw [hfe]
    split_ifs <;> first | omega | linarith

lemma pyRound1_mono {x y : α} (h : x ≤ y) : pyRound1 x ≤ pyRound1 y := by
  unfold pyRound1
  have hr : roundHE (10 * x) ≤ roundHE (10 * y) := roundHE_mono (by linarith)
  have : ((roundHE (10 * x) : ℤ) : α) ≤ ((roundHE (10 * y) : ℤ) : α) := by
    exact_mod_cast hr
  linarith

lemma pyRound1_range {x : α} (h1 : 1 ≤ x) (h10 : x ≤ 10) :
    1 ≤ pyRound1 x ∧ pyRound1 x ≤ 10 := by
  have l : (10 : ℤ) ≤ roundHE (10 * x) := by
    apply intCast_le_roundHE
    push_cast
    linarith
  have u : roundHE (10 * x) ≤ (100 : ℤ) := by
    apply roundHE_le_intCast
    push_cast
    linarith
  have lc : (10 : α) ≤ ((roundHE (10 * x) : ℤ) : α) := by exact_mod_cast l
  have uc : ((roundHE (10 * x) : ℤ) : α) ≤ (100 : α) := by exact_mod_cast u
  unfold pyRound1
  constructor <;> [linarith [lc]; linarith [uc]]

lemma pyInt_of_nonneg {q : ℚ} (h : 0 ≤ q) : pyInt q = ⌊q⌋ := by
  unfold pyInt
  rw [if_neg (not_lt.mpr h)]

end RoundLemmas

section ClampLemmas

variable {α : Type} [LinearOrderedField α]

lemma clampRating_range (x : α) : 1 ≤ clampRating x ∧ clampRating x ≤ 10 := by
  unfold clampRating
  constructor
  · exact le_max_left 1 (min 10 x)
  · exact max_le (by norm_num) (min_le_left 10 x)

lemma clampRating_mono {x y : α} (h : x ≤ y) :
    clampRating x ≤ clampRating y :=
  max_le_max le_rfl (min_le_min le_rfl h)

end ClampLemmas

/-! ### Lemmas on the noise pipeline -/

lemma addNoise_zero (z : ℕ → ℝ) (i : ℕ) (vs : List ℝ) :
    addNoise 0 z i vs = vs.map (fun v => pyRound1 (clampRating v)) := by
  induction vs generalizing i with
  | nil => rfl
  | cons v vs ih => simp [addNoise, ih]

lemma addNoise_get? (σ : ℝ) (z : ℕ → ℝ) (i j : ℕ) (vs : List ℝ) :
    (addNoise σ z i vs)[j]? =
      (vs[j]?).map (fun v => pyRound1 (clampRating (v + σ * z (i + j)))) := by
  induction vs generalizing i j with
  | nil => simp [addNoise]
  | cons v vs ih =>
    cases j with
    | zero => simp [addNoise]
    | succ j =>
      simp only [addNoise, List.getElem?_cons_succ, ih]
      rw [show i + 1 + j = i + (j + 1) from by omega]

lemma addNoise_forall (σ : ℝ) (z : ℕ → ℝ) (i : ℕ) (vs : List ℝ) :
    (addNoise σ z i vs).Forall
      (fun x => 1 ≤ x ∧ x ≤ 10 ∧ ∃ m : ℤ, x = (m : ℝ) / 10) := by
  induction vs generalizing i with
  | nil => simp [addNoise]
  | cons v vs ih =>
    simp only [addNoise, List.forall_cons]
    refine ⟨⟨?_, ?_, ⟨roundHE (10 * clampRating (v + σ * z i)), rfl⟩⟩, ih (i + 1)⟩
    · exact (pyRound1_range (clampRating_range _).1 (clampRating_range _).2).1
    · exact (pyRound1_range (clampRating_range _).1 (clampRating_range _).2).2

lemma shapeValues_unknown {pt : String} (n : ℕ) (base : ℝ)
    (h : ¬(pt = "honeymoon_dip_recovery" ∨ pt = "steady_improvement" ∨
        pt = "struggle_then_improve" ∨ pt = "volatile" ∨ pt = "declining")) :
    shapeValues pt n base = List.replicate n base := by
  push_neg at h
  obtain ⟨h1, h2, h3, h4, h5⟩ := h
  unfold shapeValues
  rw [if_neg h1, if_neg h2, if_neg h3, if_neg h4, if_neg h5]

/-! ### Claim C3 -/

/-- C3: for every pattern type (recognized or not), every
`num_points ≥ 1`, every `noise_level ≥ 0`, every group type and indicator
key, and every realization of the Gaussian noise stream, every rating
produced by `generate_pattern` lies in `[1, 10]` and is an integer multiple
of one tenth (rounded to one decimal). -/
theorem generate_pattern_range (pattern_type : String) (num_points : ℕ)
    (group_type indicator_key : String) (noise_level : ℝ) (z : ℕ → ℝ)
    (hn : 1 ≤ num_points) (hσ : 0 ≤ noise_level) :
    (generate_pattern pattern_type num_points group_type indicator_key
        noise_level z).Forall
      (fun x => 1 ≤ x ∧ x ≤ 10 ∧ ∃ m : ℤ, x = (m : ℝ) / 10) := by
  unfold generate_pattern
  exact addNoise_forall _ _ _ _

/-- Witness for C3 at `pattern_type = "flat"`, `num_points = 1`,
`noise_level = 0`. -/
theorem generate_pattern_range_witness :
    (1 : ℕ) ≤ 1 ∧ (0 : ℝ) ≤ 0 ∧
      (generate_pattern "flat" 1 "x" "y" 0 uZero).Forall
        (fun x => 1 ≤ x ∧ x ≤ 10 ∧ ∃ m : ℤ, x = (m : ℝ) / 10) :=
  ⟨le_refl 1, le_refl 0,
    generate_pattern_range "flat" 1 "x" "y" 0 uZero (le_refl 1) (le_refl 0)⟩

/-! ### Claim C5 -/

/-- C5: for every `pattern_type` outside the five named archetypes,
`generate_pattern` degrades to the flat sequence at the resolved baseline:
the pre-noise values are `num_points` copies of the baseline, and the
output at each index is the baseline plus that index's noise draw, clamped
and rounded as usual. -/
theorem generate_pattern_unknown_flat (pattern_type : String)
    (num_points : ℕ) (group_type indicator_key : String) (noise_level : ℝ)
    (z : ℕ → ℝ)
    (h : ¬(pattern_type = "honeymoon_dip_recovery" ∨
        pattern_type = "steady_improvement" ∨
        pattern_type = "struggle_then_improve" ∨ pattern_type = "volatile" ∨
        pattern_type = "declining")) :
    shapeValues pattern_type num_points
        (get_base_rating group_type indicator_key) =
      List.replicate num_points (get_base_rating group_type indicator_key) ∧
    ∀ j : ℕ,
      (generate_pattern pattern_type num_points group_type indicator_key
          noise_level z)[j]? =
        ((List.replicate num_points
            (get_base_rating group_type indicator_key))[j]?).map
          (fun v => pyRound1 (clampRating (v + noise_level * z j))) := by
  refine ⟨shapeValues_unknown _ _ h, fun j => ?_⟩
  unfold generate_pattern
  rw [shapeValues_unknown _ _ h, addNoise_get?]
  simp

/-- Witness for C5 at `pattern_type = "flat"` (not an archetype),
`num_points = 2`. -/
theorem generate_pattern_unknown_flat_witness :
    ¬(("flat" : String) = "honeymoon_dip_recovery" ∨
        ("flat" : String) = "steady_improvement" ∨
        ("flat" : String) = "struggle_then_improve" ∨
        ("flat" : String) = "volatile" ∨ ("flat" : String) = "declining") ∧
      (generate_pattern "flat" 2 "mitarbeitende" "empowerment" 1 uZero)[0]? =
        ((List.replicate 2 (get_base_rating "mitarbeitende" "empowerment"))[0]?).map
          (fun v => pyRound1 (clampRating (v + 1 * uZero 0))) := by
  have h : ¬(("flat" : String) = "honeymoon_dip_recovery" ∨
      ("flat" : String) = "steady_improvement" ∨
      ("flat" : String) = "struggle_then_improve" ∨
      ("flat" : String) = "volatile" ∨ ("flat" : String) = "declining") := by
    decide
  exact ⟨h,
    (generate_pattern_unknown_flat "flat" 2 "mitarbeitende" "empowerment" 1
        uZero h).2 0⟩

/-! ### Claim C8 -/

/-- C8: with `noise_level = 0` the output of `generate_pattern` does not
depend on the Gaussian stream: any two calls with identical arguments
return identical sequences. -/
theorem generate_pattern_deterministic (pattern_type : String)
    (num_points : ℕ) (group_type indicator_key : String) (z w : ℕ → ℝ) :
    generate_pattern pattern_type num_points group_type indicator_key 0 z =
      generate_pattern pattern_type num_points group_type indicator_key 0 w := by
  unfold generate_pattern
  rw [addNoise_zero, addNoise_zero]

/-! ### Claim C9 -/

lemma tanh_mono {x y : ℝ} (h : x ≤ y) : Real.tanh x ≤ Real.tanh y := by
  rw [Real.tanh_eq_sinh_div_cosh, Real.tanh_eq_sinh_div_cosh,
    div_le_div_iff (Real.cosh_pos x) (Real.cosh_pos y)]
  have hs : 0 ≤ Real.sinh (y - x) := by
    have h0 : Real.sinh 0 ≤ Real.sinh (y - x) :=
      Real.sinh_le_sinh.mpr (by linarith)
    simpa using h0
  have hd := Real.sinh_sub y x
  nlinarith [hs, hd]

lemma steady_val_mono (n : ℕ) (base : ℝ) {i j : ℕ} (h : i ≤ j) :
    steady_val n base i ≤ steady_val n base j := by
  simp only [steady_val]
  have hc : (0 : ℝ) < ((max 1 (n - 1) : ℕ) : ℝ) := by
    have : 1 ≤ max 1 (n - 1) := le_max_left 1 (n - 1)
    exact_mod_cast lt_of_lt_of_le zero_lt_one (by exact_mod_cast this)
  have hp : (i : ℝ) / ((max 1 (n - 1) : ℕ) : ℝ) ≤
      (j : ℝ) / ((max 1 (n - 1) : ℕ) : ℝ) :=
    (div_le_div_right hc).mpr (by exact_mod_cast h)
  have ht := tanh_mono (x := ((i : ℝ) / ((max 1 (n - 1) : ℕ) : ℝ) - 0.5) * 3)
    (y := ((j : ℝ) / ((max 1 (n - 1) : ℕ) : ℝ) - 0.5) * 3) (by linarith)
  linarith

/-- C9: `generate_pattern` for the `steady_improvement` archetype with
`num_points = 10`, group/indicator resolving to baseline `6.0`, and
`noise_level = 0` yields a non-decreasing sequence, for every realization of
the noise stream. -/
theorem steady_improvement_nondecreasing (z : ℕ → ℝ) :
    get_base_rating "multiplikatoren" "orientierung_sinn" = 6 ∧
      List.Chain' (· ≤ ·)
        (generate_pattern "steady_improvement" 10 "multiplikatoren"
          "orientierung_sinn" 0 z) := by
  constructor
  · simp [get_base_rating, alistGet?, GROUP_BASELINES, INDICATOR_MODIFIERS]
    norm_num
  · unfold generate_pattern
    have hbv : shapeValues "steady_improvement" 10
        (get_base_rating "multiplikatoren" "orientierung_sinn") =
        steady_improvement 10
          (get_base_rating "multiplikatoren" "orientierung_sinn") := by
      unfold shapeValues
      rw [if_neg (by decide), if_pos rfl]
    rw [hbv, addNoise_zero]
    unfold steady_improvement
    rw [List.map_map, show (10 : ℕ) = Nat.succ 9 from rfl,
      List.chain'_map, List.chain'_range_succ]
    intro m _
    exact pyRound1_mono (clampRating_mono (steady_val_mono _ _ (Nat.le_succ m)))

/-! ### Claim C10 -/

lemma mem_pyInsert {β : Type} {p : String × β} {d : List (String × β)}
    {k : String} {v : β} (hp : p ∈ pyInsert d k v) : p = (k, v) ∨ p ∈ d := by
  unfold pyInsert at hp
  split_ifs at hp with hany
  · obtain ⟨q, hq, hqe⟩ := List.mem_map.mp hp
    by_cases hk : q.1 = k
    · left; rw [← hqe, if_pos hk]
    · right; rw [← hqe, if_neg hk]; exact hq
  · rcases List.mem_append.mp hp with h | h
    · right; exact h
    · left; exact List.mem_singleton.mp h

lemma mem_foldl_pyInsert {β : Type} (f : ℕ × String → β)
    (l : List (ℕ × String)) (acc : List (String × β)) (p : String × β)
    (hp : p ∈ l.foldl (fun h q => pyInsert h q.2 (f q)) acc) :
    p ∈ acc ∨ ∃ q ∈ l, p = (q.2, f q) := by
  induction l generalizing acc with
  | nil => left; exact hp
  | cons a t ih =>
    rcases ih _ hp with h | ⟨q, hq, he⟩
    · rcases mem_pyInsert h with he | hacc
      · right; exact ⟨a, List.mem_cons_self a t, he⟩
      · left; exact hacc
    · right; exact ⟨q, List.mem_cons_of_mem a hq, he⟩

/-- C10: every series stored by `generate_assessment_history` is produced
by `generate_pattern` called with the effective noise level
`max 0.1 (noise_level + u j)` — the caller's noise level perturbed by the
indicator's uniform draw and then floored at `0.1` — so the noise standard
deviation is at least `0.1` for every indicator, even when the caller
passes `noise_level = 0`. -/
theorem generate_assessment_history_noise_floor (pattern_type : String)
    (num_impulses : ℕ) (group_type : String) (indicator_keys : List String)
    (noise_level : ℝ) (u : ℕ → ℝ) (z : ℕ → ℕ → ℝ) (p : String × List ℝ)
    (hp : p ∈ generate_assessment_history pattern_type num_impulses
        group_type indicator_keys noise_level u z) :
    ∃ j : ℕ, (j, p.1) ∈ indicator_keys.enum ∧
      p.2 = generate_pattern pattern_type num_impulses group_type p.1
          (max 0.1 (noise_level + u j)) (z j) ∧
      (0.1 : ℝ) ≤ max 0.1 (noise_level + u j) := by
  unfold generate_assessment_history at hp
  rcases mem_foldl_pyInsert _ _ _ _ hp with h | ⟨q, hq, he⟩
  · simp at h
  · obtain ⟨j, key⟩ := q
    subst he
    exact ⟨j, by simpa using hq, rfl, le_max_left _ _⟩

/-- Witness for C10 at a single indicator `"a"` with `noise_level = 0` and
all-zero random streams. -/
theorem generate_assessment_history_noise_floor_witness :
    ∃ j : ℕ, (j, flatEntry.1) ∈ (["a"] : List String).enum ∧
      flatEntry.2 = generate_pattern "flat" 1 "g" flatEntry.1
          (max 0.1 (0 + uZero j)) (zZero j) ∧
      (0.1 : ℝ) ≤ max 0.1 (0 + uZero j) := by
  apply generate_assessment_history_noise_floor "flat" 1 "g" ["a"] 0 uZero
    zZero flatEntry
  exact List.mem_singleton.mpr rfl

/-! ### Claim C4 -/

/-- C4: on an empty record list the analyzer returns (without error) the
"no data yet" summary: zero assessments, null average, trend `"stable"`,
no weak indicators, no indicator averages (and no impulse dates). -/
theorem analyze_empty :
    analyze [] =
      { total_assessments := 0, impulse_dates := [], average_rating := none
      , trend := "stable", weak_indicators := [], indicator_averages := [] } :=
  rfl

/-! ### Claim C1 -/

lemma analyze_trend (recs : List Assessment) :
    (analyze recs).trend = computeTrend (allRatings recs) := by
  cases recs with
  | nil => rfl
  | cons a t => rfl

/-- C1: the trend of the analyzed history, over the non-null ratings in
most-recent-first order: `"stable"` whenever fewer than 4 ratings are
present; with at least 4 ratings and `mid = count / 2`, the trend is
`"up"` iff the mean of the first `mid` ratings exceeds the mean of the
rest by more than `0.5`, `"down"` iff it is below it by more than `0.5`,
and `"stable"` otherwise. -/
theorem trend_classification (recs : List Assessment) :
    ((allRatings recs).length < 4 → (analyze recs).trend = "stable") ∧
    (4 ≤ (allRatings recs).length →
      (((analyze recs).trend = "up") ↔
        older_avg (allRatings recs) + 0.5 < recent_avg (allRatings recs)) ∧
      (((analyze recs).trend = "down") ↔
        recent_avg (allRatings recs) < older_avg (allRatings recs) - 0.5) ∧
      (((analyze recs).trend = "stable") ↔
        ¬(older_avg (allRatings recs) + 0.5 < recent_avg (allRatings recs)) ∧
        ¬(recent_avg (allRatings recs) < older_avg (allRatings recs) - 0.5))) := by
  rw [analyze_trend]
  unfold computeTrend
  constructor
  · intro h
    rw [if_neg (by omega)]
  · intro h4
    rw [if_pos h4]
    by_cases hu : older_avg (allRatings recs) + 0.5 < recent_avg (allRatings recs)
    · rw [if_pos hu]
      refine ⟨⟨fun _ => hu, fun _ => rfl⟩, ⟨?_, ?_⟩, ⟨?_, ?_⟩⟩
      · intro heq; exact absurd heq (by decide)
      · intro hd; exact absurd hu (by linarith)
      · intro hs; exact absurd hs (by decide)
      · rintro ⟨hn1, -⟩; exact absurd hu hn1
    · rw [if_neg hu]
      by_cases hd : recent_avg (allRatings recs) < older_avg (allRatings recs) - 0.5
      · rw [if_pos hd]
        refine ⟨⟨?_, ?_⟩, ⟨fun _ => hd, fun _ => rfl⟩, ⟨?_, ?_⟩⟩
        · intro heq; exact absurd heq (by decide)
        · intro hup; exact absurd hup hu
        · intro hs; exact absurd hs (by decide)
        · rintro ⟨-, hn2⟩; exact absurd hd hn2
      · rw [if_neg hd]
        refine ⟨⟨?_, ?_⟩, ⟨?_, ?_⟩, ⟨fun _ => ⟨hu, hd⟩, fun _ => rfl⟩⟩
        · intro heq; exact absurd heq (by decide)
        · intro hup; exact absurd hup hu
        · intro heq; exact absurd heq (by decide)
        · intro hdn; exact absurd hdn hd

/-- Witness for C1: six ratings `9, 9, 9, 1, 1, 1` (most recent first)
classify as `"up"`. -/
theorem trend_classification_witness : (analyze recsTrendUp).trend = "up" := by
  have h4 : 4 ≤ (allRatings recsTrendUp).length := by
    simp [allRatings, recsTrendUp]
  have hc : older_avg (allRatings recsTrendUp) + 0.5 <
      recent_avg (allRatings recsTrendUp) := by
    simp [allRatings, recsTrendUp, older_avg, recent_avg]
    norm_num
  exact ((trend_classification recsTrendUp).2 h4).1.mpr hc

/-! ### Claim C2 -/

lemma insertBy_length {α : Type} (lt : α → α → Prop) [DecidableRel lt]
    (a : α) (l : List α) : (insertBy lt a l).length = l.length + 1 := by
  induction l with
  | nil => rfl
  | cons b bs ih =>
    unfold insertBy
    split_ifs <;> simp [ih]

lemma sortBy_length {α : Type} (lt : α → α → Prop) [DecidableRel lt]
    (l : List α) : (sortBy lt l).length = l.length := by
  induction l with
  | nil => rfl
  | cons a t ih =>
    unfold sortBy at ih ⊢
    rw [List.foldr_cons, insertBy_length, ih]
    rfl

lemma pyRound1_of_mul_ten_int {q : ℚ} {m : ℤ} (h : 10 * q = (m : ℚ)) :
    pyRound1 q = (m : ℚ) / 10 := by
  unfold pyRound1 roundHE
  rw [h, Int.fract_intCast, Int.floor_intCast, if_pos (by norm_num)]

lemma pyRound1_intCast (m : ℤ) : pyRound1 ((m : ℚ)) = (m : ℚ) := by
  have h : 10 * (m : ℚ) = ((10 * m : ℤ) : ℚ) := by push_cast; ring
  rw [pyRound1_of_mul_ten_int h]
  push_cast
  ring

lemma foldl_iaStep_snd (l : List (String × List ℚ))
    (acc : List (String × ℚ) × List WeakIndicator) :
    (l.foldl iaStep acc).2 = acc.2 ++ (l.filter weakPred).map weakEnrich := by
  induction l generalizing acc with
  | nil => simp
  | cons p t ih =>
    rw [List.foldl_cons, ih]
    by_cases h0 : p.2 = []
    · have hstep : iaStep acc p = acc := by simp [iaStep, h0]
      have hf : List.filter weakPred (p :: t) = List.filter weakPred t := by
        simp [List.filter_cons, weakPred, h0]
      rw [hstep, hf]
    · by_cases h6 : p.2.sum / (p.2.length : ℚ) < 6
      · have hstep : (iaStep acc p).2 = acc.2 ++ [weakEnrich p] := by
          simp [iaStep, h0, h6, weakEnrich]
        have hf : List.filter weakPred (p :: t) =
            p :: List.filter weakPred t := by
          simp [List.filter_cons, weakPred, h0, h6]
        rw [hstep, hf, List.map_cons, List.append_assoc]
        rfl
      · have hstep : (iaStep acc p).2 = acc.2 := by
          simp [iaStep, h0, h6]
        have hf : List.filter weakPred (p :: t) = List.filter weakPred t := by
          simp [List.filter_cons, weakPred, h0, h6]
        rw [hstep, hf]

lemma foldl_iaStep_fst (l : List (String × List ℚ))
    (acc : List (String × ℚ) × List WeakIndicator) :
    (l.foldl iaStep acc).1 = acc.1 ++
      (l.filter (fun p => decide (¬p.2 = []))).map
        (fun p => (p.1, pyRound1 (p.2.sum / (p.2.length : ℚ)))) := by
  induction l generalizing acc with
  | nil => simp
  | cons p t ih =>
    rw [List.foldl_cons, ih]
    by_cases h0 : p.2 = []
    · have hstep : iaStep acc p = acc := by simp [iaStep, h0]
      have hf : List.filter (fun p => decide (¬p.2 = [])) (p :: t) =
          List.filter (fun p => decide (¬p.2 = [])) t := by
        simp [List.filter_cons, h0]
      rw [hstep, hf]
    · have hstep : (iaStep acc p).1 =
          acc.1 ++ [(p.1, pyRound1 (p.2.sum / (p.2.length : ℚ)))] := by
        by_cases h6 : p.2.sum / (p.2.length : ℚ) < 6
        · simp [iaStep, h0, h6]
        · simp [iaStep, h0, h6]
      have hf : List.filter (fun p => decide (¬p.2 = [])) (p :: t) =
          p :: List.filter (fun p => decide (¬p.2 = [])) t := by
        simp [List.filter_cons, h0]
      rw [hstep, hf, List.map_cons, List.append_assoc]
      rfl

lemma weakList_eq (l : List (String × List ℚ)) :
    ((l.filterMap (fun p =>
          if p.2 = [] then none
          else some (p.1, p.2.sum / (p.2.length : ℚ)))).filter
        (fun q => decide (q.2 < 6))).map
      (fun q => (⟨q.1, get_indicator_name q.1, pyRound1 q.2⟩ : WeakIndicator)) =
    (l.filter weakPred).map weakEnrich := by
  induction l with
  | nil => rfl
  | cons p t ih =>
    by_cases h0 : p.2 = []
    · simp [List.filterMap_cons, h0, List.filter_cons, weakPred, ih]
    · by_cases h6 : p.2.sum / (p.2.length : ℚ) < 6
      · simp [List.filterMap_cons, h0, h6, List.filter_cons, weakPred,
          weakEnrich, ih]
      · simp [List.filterMap_cons, h0, h6, List.filter_cons, weakPred, ih]

/-- Counterexample for C2 as stated: with six indicators all averaging
below 6 (`a ↦ 5, b ↦ 4, c ↦ 3, d ↦ 2, e ↦ 1, f ↦ 3/2`), the returned
`weak_indicators` has only 5 entries while `indicator_averages` has 6
entries below 6 — the output is truncated to the five weakest, so it does
not consist of all such entries. -/
theorem weak_indicators_cex :
    ((analyze recsSixWeak).weak_indicators).length = 5 ∧
    (((analyze recsSixWeak).indicator_averages).filter
        (fun p => decide (p.2 < 6))).length = 6 := by
  have hivs : indicatorRatingLists recsSixWeak =
      [("a", [(5 : ℚ)]), ("b", [4]), ("c", [3]), ("d", [2]), ("e", [1]),
       ("f", [1, 2])] := by decide
  have hbody : analyze recsSixWeak = analyzeBody recsSixWeak := rfl
  constructor
  · rw [hbody]
    simp only [analyzeBody]
    rw [List.length_take, sortBy_length, iaWeakPair, foldl_iaStep_snd, hivs]
    norm_num [List.filter_cons, weakPred]
  · rw [hbody]
    simp only [analyzeBody]
    rw [iaWeakPair, foldl_iaStep_fst, hivs]
    have e5 : pyRound1 ((5 : ℚ)) = 5 := by
      rw [pyRound1_of_mul_ten_int (show (10 : ℚ) * 5 = ((50 : ℤ) : ℚ) by norm_num)]
      norm_num
    have e4 : pyRound1 ((4 : ℚ)) = 4 := by
      rw [pyRound1_of_mul_ten_int (show (10 : ℚ) * 4 = ((40 : ℤ) : ℚ) by norm_num)]
      norm_num
    have e3 : pyRound1 ((3 : ℚ)) = 3 := by
      rw [pyRound1_of_mul_ten_int (show (10 : ℚ) * 3 = ((30 : ℤ) : ℚ) by norm_num)]
      norm_num
    have e2 : pyRound1 ((2 : ℚ)) = 2 := by
      rw [pyRound1_of_mul_ten_int (show (10 : ℚ) * 2 = ((20 : ℤ) : ℚ) by norm_num)]
      norm_num
    have e1 : pyRound1 ((1 : ℚ)) = 1 := by
      rw [pyRound1_of_mul_ten_int (show (10 : ℚ) * 1 = ((10 : ℤ) : ℚ) by norm_num)]
      norm_num
    have ef : pyRound1 ((3 : ℚ) / 2) = 3 / 2 := by
      rw [pyRound1_of_mul_ten_int
        (show (10 : ℚ) * (3 / 2) = ((15 : ℤ) : ℚ) by norm_num)]
      norm_num
    norm_num [List.filter_cons, List.cons_ne_nil, e5, e4, e3, e2, e1, ef]

/-- C2 as amended: `weak_indicators` consists of the indicators whose
exact (unrounded) average is below 6.0 — not of the entries of the rounded
`indicator_averages` map below 6.0 — each enriched with the display name
and the average rounded to one decimal, sorted ascending by the rounded
rating, and truncated to the five weakest. -/
theorem weak_indicators_spec (recs : List Assessment) :
    (analyze recs).weak_indicators = specWeakIndicators recs := by
  cases recs with
  | nil => rfl
  | cons a t =>
    show (analyzeBody (a :: t)).weak_indicators = _
    simp only [analyzeBody]
    unfold specWeakIndicators unroundedAverages
    rw [weakList_eq]
    rw [iaWeakPair, foldl_iaStep_snd]
    rfl

/-! ### Claim C6 -/

lemma alistGet?_eq_none {β : Type} {d : List (String × β)} {k : String}
    (h : d.any (fun p => decide (p.1 = k)) = false) : alistGet? k d = none := by
  induction d with
  | nil => rfl
  | cons p ps ih =>
    rw [List.any_cons, Bool.or_eq_false_iff] at h
    unfold alistGet?
    rw [if_neg (of_decide_eq_false h.1)]
    exact ih h.2

lemma alistGet?_append {β : Type} (d₁ d₂ : List (String × β)) (k : String) :
    alistGet? k (d₁ ++ d₂) = (alistGet? k d₁).or (alistGet? k d₂) := by
  induction d₁ with
  | nil => simp [alistGet?]
  | cons p ps ih =>
    by_cases hk : p.1 = k
    · simp [alistGet?, hk, Option.or]
    · simp [alistGet?, hk, ih]

lemma alistGet?_update_self {β : Type} (d : List (String × β)) (k : String)
    (v : β) (h : d.any (fun p => decide (p.1 = k)) = true) :
    alistGet? k (d.map (fun p => if p.1 = k then (k, v) else p)) = some v := by
  induction d with
  | nil => simp at h
  | cons p ps ih =>
    by_cases hk : p.1 = k
    · simp [alistGet?, hk]
    · rw [List.any_cons] at h
      have h2 : ps.any (fun p => decide (p.1 = k)) = true := by
        simpa [hk] using h
      simp only [List.map_cons, if_neg hk]
      unfold alistGet?
      rw [if_neg hk]
      exact ih h2

lemma alistGet?_update_ne {β : Type} (d : List (String × β)) (k : String)
    (v : β) (k' : String) (h : ¬k' = k) :
    alistGet? k' (d.map (fun p => if p.1 = k then (k, v) else p)) =
      alistGet? k' d := by
  induction d with
  | nil => rfl
  | cons p ps ih =>
    by_cases hk : p.1 = k
    · simp only [List.map_cons, if_pos hk]
      unfold alistGet?
      have h1 : ¬((k, v).1 = k') := fun he => h he.symm
      have h2 : ¬(p.1 = k') := fun he => h (he ▸ hk)
      rw [if_neg h1, if_neg h2]
      exact ih
    · simp only [List.map_cons, if_neg hk]
      unfold alistGet?
      by_cases hp : p.1 = k'
      · rw [if_pos hp, if_pos hp]
      · rw [if_neg hp, if_neg hp]
        exact ih

lemma alistGet?_pyInsert {β : Type} (d : List (String × β)) (k k' : String)
    (v : β) :
    alistGet? k' (pyInsert d k v) =
      if k' = k then some v else alistGet? k' d := by
  unfold pyInsert
  by_cases hany : d.any (fun p => decide (p.1 = k)) = true
  · rw [if_pos hany]
    by_cases hk : k' = k
    · subst hk
      rw [if_pos rfl]
      exact alistGet?_update_self d k' v hany
    · rw [if_neg hk]
      exact alistGet?_update_ne d k v k' hk
  · have hfalse : d.any (fun p => decide (p.1 = k)) = false := by
      cases hb : d.any (fun p => decide (p.1 = k)) with
      | false => rfl
      | true => exact absurd hb hany
    rw [if_neg hany, alistGet?_append]
    by_cases hk : k' = k
    · subst hk
      rw [alistGet?_eq_none hfalse, if_pos rfl]
      unfold alistGet?
      rw [if_pos rfl]
      rfl
    · rw [if_neg hk]
      have hs : alistGet? k' [(k, v)] = none := by
        unfold alistGet?
        rw [if_neg (fun he => hk he.symm)]
        rfl
      rw [hs]
      exact Option.or_none

lemma alistGet?_bucketUpdate_self {β : Type} (d : List (String × List β))
    (k : String) (v : β) (h : d.any (fun p => decide (p.1 = k)) = true) :
    alistGet? k (d.map (fun p => if p.1 = k then (p.1, p.2 ++ [v]) else p)) =
      some ((alistGet? k d).getD [] ++ [v]) := by
  induction d with
  | nil => simp at h
  | cons p ps ih =>
    by_cases hk : p.1 = k
    · simp [alistGet?, hk]
    · rw [List.any_cons] at h
      have h2 : ps.any (fun p => decide (p.1 = k)) = true := by
        simpa [hk] using h
      simp only [List.map_cons, if_neg hk]
      unfold alistGet?
      rw [if_neg hk, if_neg hk]
      exact ih h2

lemma alistGet?_bucketUpdate_ne {β : Type} (d : List (String × List β))
    (k : String) (v : β) (k' : String) (h : ¬k' = k) :
    alistGet? k' (d.map (fun p => if p.1 = k then (p.1, p.2 ++ [v]) else p)) =
      alistGet? k' d := by
  induction d with
  | nil => rfl
  | cons p ps ih =>
    by_cases hk : p.1 = k
    · simp only [List.map_cons, if_pos hk]
      unfold alistGet?
      have h2 : ¬(p.1 = k') := fun he => h (he ▸ hk)
      rw [if_neg h2, if_neg h2]
      exact ih
    · simp only [List.map_cons, if_neg hk]
      unfold alistGet?
      by_cases hp : p.1 = k'
      · rw [if_pos hp, if_pos hp]
      · rw [if_neg hp, if_neg hp]
        exact ih

lemma alistGet?_bucketAdd_self {β : Type} (d : List (String × List β))
    (k : String) (v : β) :
    alistGet? k (bucketAdd d k v) =
      some ((alistGet? k d).getD [] ++ [v]) := by
  unfold bucketAdd
  by_cases hany : d.any (fun p => decide (p.1 = k)) = true
  · rw [if_pos hany]
    exact alistGet?_bucketUpdate_self d k v hany
  · have hfalse : d.any (fun p => decide (p.1 = k)) = false := by
      cases hb : d.any (fun p => decide (p.1 = k)) with
      | false => rfl
      | true => exact absurd hb hany
    rw [if_neg hany, alistGet?_append, alistGet?_eq_none hfalse]
    unfold alistGet?
    rw [if_pos rfl]
    rfl

lemma alistGet?_bucketAdd_ne {β : Type} (d : List (String × List β))
    (k : String) (v : β) (k' : String) (h : ¬k' = k) :
    alistGet? k' (bucketAdd d k v) = alistGet? k' d := by
  unfold bucketAdd
  by_cases hany : d.any (fun p => decide (p.1 = k)) = true
  · rw [if_pos hany]
    exact alistGet?_bucketUpdate_ne d k v k' h
  · rw [if_neg hany, alistGet?_append]
    have hs : alistGet? k' [(k, [v])] = none := by
      unfold alistGet?
      rw [if_neg (fun he => h he.symm)]
      rfl
    rw [hs]
    exact Option.or_none

lemma impulsesByDate_go (l : List Assessment)
    (acc : List (String × List Assessment)) (ds : String) :
    (alistGet? ds (l.foldl (fun d a => bucketAdd d (dateOf a) a) acc)).getD [] =
      (alistGet? ds acc).getD [] ++
        l.filter (fun a => decide (dateOf a = ds)) := by
  induction l generalizing acc with
  | nil => simp
  | cons a t ih =>
    rw [List.foldl_cons, ih]
    by_cases h : dateOf a = ds
    · subst h
      rw [alistGet?_bucketAdd_self]
      simp [List.filter_cons]
    · rw [alistGet?_bucketAdd_ne _ _ _ _ (fun he => h he.symm)]
      simp [List.filter_cons, h]

lemma impulsesByDate_lookup (recs : List Assessment) (ds : String) :
    (alistGet? ds (impulsesByDate recs)).getD [] =
      recs.filter (fun a => decide (dateOf a = ds)) := by
  have h := impulsesByDate_go recs [] ds
  simpa [impulsesByDate, alistGet?] using h

lemma ratingsDict_go (l : List Assessment) (acc : List (String × Option ℚ))
    (k : String) :
    alistGet? k (l.foldl (fun d a => pyInsert d a.indicator_key a.rating) acc) =
      ((l.reverse.find? (fun a => decide (a.indicator_key = k))).map
          (fun a => a.rating)).or (alistGet? k acc) := by
  induction l generalizing acc with
  | nil => simp
  | cons a t ih =>
    rw [List.foldl_cons, ih, List.reverse_cons, List.find?_append]
    cases hfind : t.reverse.find? (fun a => decide (a.indicator_key = k)) with
    | some b => simp [Option.or]
    | none =>
      have hm0 : (Option.map (fun a => a.rating)
          (none : Option Assessment)) = none := rfl
      rw [hm0, Option.none_or, Option.none_or, alistGet?_pyInsert]
      by_cases hk : k = a.indicator_key
      · rw [if_pos hk]
        have hd : (decide (a.indicator_key = k)) = true :=
          decide_eq_true hk.symm
        rw [List.find?_cons, hd]
        rfl
      · rw [if_neg hk]
        have hd : (decide (a.indicator_key = k)) = false :=
          decide_eq_false (fun he => hk he.symm)
        rw [List.find?_cons, hd]
        rfl

lemma ratingsDict_lookup (bucket : List Assessment) (k : String) :
    alistGet? k (ratingsDict bucket) =
      (bucket.reverse.find? (fun a => decide (a.indicator_key = k))).map
        (fun a => a.rating) := by
  have h := ratingsDict_go bucket [] k
  simpa [ratingsDict, alistGet?] using h

/-- Counterexample for C6 as stated: with two same-day records for
indicator `"k"` — the later-inserted (most recent) one rated 9, the
earlier one rated 3 — the Impulse built for that date maps `"k"` to 3,
the rating of the earlier record, not 9. -/
theorem impulse_last_write_cex :
    (analyze recsSameDay).impulse_dates =
      [⟨"2024-01-01", 2, some 6, [("k", some 3)]⟩] ∧ ¬((3 : ℚ) = 9) := by
  constructor
  · have hibd : impulsesByDate recsSameDay =
        [("2024-01-01", recsSameDay)] := by decide
    show (analyzeBody recsSameDay).impulse_dates = _
    simp only [analyzeBody]
    rw [hibd]
    have hmap : ((sortBy strGt ([("2024-01-01", recsSameDay)].map Prod.fst)).take 10).map
        (buildImpulse [("2024-01-01", recsSameDay)]) =
        [buildImpulse [("2024-01-01", recsSameDay)] "2024-01-01"] := rfl
    rw [hmap]
    have hbucket : (alistGet? "2024-01-01"
        [("2024-01-01", recsSameDay)]).getD [] = recsSameDay := by decide
    have hrat : recsSameDay.filterMap (fun a => a.rating) = [(9 : ℚ), 3] := by
      decide
    have e6 : pyRound1 ((6 : ℚ)) = 6 := by
      rw [pyRound1_of_mul_ten_int (show (10 : ℚ) * 6 = ((60 : ℤ) : ℚ) by norm_num)]
      norm_num
    simp only [buildImpulse, hbucket, hrat]
    have hcount : recsSameDay.length = 2 := by decide
    have hdict : ratingsDict recsSameDay = [("k", some 3)] := by decide
    rw [hcount, hdict]
    have havg : pyRoundTruthy
        (if ([(9 : ℚ), 3] : List ℚ) = [] then none
         else some (([(9 : ℚ), 3].sum) / (([(9 : ℚ), 3].length : ℕ) : ℚ))) =
        some 6 := by
      rw [if_neg (by decide)]
      have hsum : (([(9 : ℚ), 3].sum) / (([(9 : ℚ), 3].length : ℕ) : ℚ)) = 6 := by
        simp [List.sum_cons]
        norm_num
      rw [hsum]
      simp [pyRoundTruthy, e6]
    rw [havg]
  · norm_num

/-- C6 as amended: within one date bucket the `ratings` dict is built by
iterating the bucket in the most-recent-first read order with
last-write-wins dict insertion, so for records sharing the same date and
indicator the impulse reports the rating of the record appearing last in
that order — the earliest-timestamped (first-inserted) one — not the most
recent. -/
theorem impulse_ratings_oldest_wins (recs : List Assessment)
    (imp : ImpulseOut) (him : imp ∈ (analyze recs).impulse_dates)
    (k : String) :
    alistGet? k imp.ratings =
      ((recs.filter (fun a => decide (dateOf a = imp.date))).reverse.find?
          (fun a => decide (a.indicator_key = k))).map (fun a => a.rating) := by
  cases recs with
  | nil => simp [analyze] at him
  | cons a t =>
    have him2 : imp ∈
        ((sortBy strGt ((impulsesByDate (a :: t)).map Prod.fst)).take 10).map
          (buildImpulse (impulsesByDate (a :: t))) := him
    obtain ⟨ds, _, heq⟩ := List.mem_map.mp him2
    subst heq
    have hdate : (buildImpulse (impulsesByDate (a :: t)) ds).date = ds := rfl
    have hr : (buildImpulse (impulsesByDate (a :: t)) ds).ratings =
        ratingsDict ((alistGet? ds (impulsesByDate (a :: t))).getD []) := rfl
    rw [hdate, hr, ratingsDict_lookup, impulsesByDate_lookup]

/-- Witness for the amended C6 on a single-record history. -/
theorem impulse_ratings_oldest_wins_witness :
    alistGet? "k" impSingle.ratings =
      ((recsSingle.filter
          (fun a => decide (dateOf a = impSingle.date))).reverse.find?
          (fun a => decide (a.indicator_key = "k"))).map (fun a => a.rating) := by
  have hmem : impSingle ∈ (analyze recsSingle).impulse_dates := by
    have hibd : impulsesByDate recsSingle = [("2024-02-02", recsSingle)] := by
      decide
    show impSingle ∈ (analyzeBody recsSingle).impulse_dates
    simp only [analyzeBody]
    rw [hibd]
    have hmap : ((sortBy strGt ([("2024-02-02", recsSingle)].map Prod.fst)).take 10).map
        (buildImpulse [("2024-02-02", recsSingle)]) =
        [buildImpulse [("2024-02-02", recsSingle)] "2024-02-02"] := rfl
    rw [hmap]
    have himp : buildImpulse [("2024-02-02", recsSingle)] "2024-02-02" =
        impSingle := by
      have hbucket : (alistGet? "2024-02-02"
          [("2024-02-02", recsSingle)]).getD [] = recsSingle := by decide
      have hrat : recsSingle.filterMap (fun a => a.rating) = [(7 : ℚ)] := by
        decide
      simp only [buildImpulse, hbucket, hrat]
      have e7 : pyRound1 ((7 : ℚ)) = 7 := by
        rw [pyRound1_of_mul_ten_int
          (show (10 : ℚ) * 7 = ((70 : ℤ) : ℚ) by norm_num)]
        norm_num
      have havg : pyRoundTruthy
          (if ([(7 : ℚ)] : List ℚ) = [] then none
           else some (([(7 : ℚ)].sum) / (([(7 : ℚ)].length : ℕ) : ℚ))) =
          some 7 := by
        rw [if_neg (by decide)]
        have hsum : (([(7 : ℚ)].sum) / (([(7 : ℚ)].length : ℕ) : ℚ)) = 7 := by
          simp [List.sum_cons]
        rw [hsum]
        simp [pyRoundTruthy, e7]
      rw [havg]
      have hcount : recsSingle.length = 1 := by decide
      have hdict : ratingsDict recsSingle = [("k", some 7)] := by decide
      rw [hcount, hdict]
      rfl
    rw [himp]
    exact List.mem_singleton.mpr rfl
  exact impulse_ratings_oldest_wins recsSingle impSingle hmem "k"

/-! ### Claim C7 -/

/-- Counterexample for C7 as stated: with `num_points = 4` and a start
offset of 10 days the computed day offsets are `0, 3, 6, 10` — the first
gap (3 days) is not `10/3` days, and the gaps are not even equal to each
other (3, 3 and 4 days) — because each offset is truncated with `int()`. -/
theorem impulse_spacing_cex :
    impulse_day_offsets 4 10 = [0, 3, 6, 10] ∧
    ¬(((3 : ℚ) - 0) = (10 : ℚ) / (4 - 1)) ∧
    ¬(((3 : ℤ) - 0) = 10 - 6) := by
  refine ⟨?_, by norm_num, by norm_num⟩
  have hdb : days_between 4 10 = 10 / 3 := by
    unfold days_between
    rw [if_pos (by norm_num)]
    norm_num
  unfold impulse_day_offsets
  rw [hdb, show List.range 4 = [0, 1, 2, 3] from rfl]
  simp only [List.map_cons, List.map_nil]
  norm_num [pyInt]

/-- C7 as amended: the sample-date offsets of `create_impulse_history` are
the truncations `int(i * offset_days / (num_points - 1))`; they are exactly
evenly spaced `offset_days / (num_points - 1)` days apart when
`num_points - 1` divides `offset_days` (in general consecutive gaps can
differ by one day), and a single date is used when `num_points = 1`. -/
theorem impulse_spacing_amended (n s : ℕ) (h2 : 2 ≤ n) :
    impulse_day_offsets n s =
      (List.range n).map
        (fun i : ℕ => ⌊(i : ℚ) * ((s : ℚ) / ((n - 1 : ℕ) : ℚ))⌋) ∧
    ((n - 1) ∣ s →
      impulse_day_offsets n s =
        (List.range n).map (fun i : ℕ => (i : ℤ) * ((s / (n - 1) : ℕ) : ℤ))) ∧
    (∀ t : ℕ, impulse_day_offsets 1 t = [0]) := by
  have hpos : 0 < n - 1 := by omega
  have hdb : days_between n s = (s : ℚ) / ((n - 1 : ℕ) : ℚ) := by
    unfold days_between
    rw [if_pos (by omega)]
  refine ⟨?_, ?_, ?_⟩
  · unfold impulse_day_offsets
    rw [hdb]
    apply List.map_congr_left
    intro i _
    apply pyInt_of_nonneg
    positivity
  · rintro ⟨m, hm⟩
    subst hm
    unfold impulse_day_offsets
    rw [hdb]
    apply List.map_congr_left
    intro i _
    have hq : (i : ℚ) * ((((n - 1) * m : ℕ) : ℚ) / ((n - 1 : ℕ) : ℚ)) =
        (((i * m : ℕ) : ℤ) : ℚ) := by
      have hne : ((n : ℚ) - 1) ≠ 0 := by
        have h1 : (1 : ℚ) < (n : ℚ) := by exact_mod_cast (by omega : 1 < n)
        exact sub_ne_zero.mpr (ne_of_gt h1)
      push_cast [Nat.cast_sub (show 1 ≤ n by omega)]
      field_simp
    rw [hq, pyInt_of_nonneg (by positivity), Int.floor_intCast]
    have hdiv : ((n - 1) * m) / (n - 1) = m := Nat.mul_div_cancel_left m hpos
    rw [hdiv]
    push_cast
    ring
  · intro t
    unfold impulse_day_offsets days_between
    rw [if_neg (by omega), show List.range 1 = [0] from rfl]
    simp only [List.map_cons, List.map_nil]
    norm_num [pyInt]

/-- Witness for the amended C7: `num_points = 4`, offset 9 days
(divisible), offsets `0, 3, 6, 9` — exactly 3 days apart. -/
theorem impulse_spacing_amended_witness :
    impulse_day_offsets 4 9 = [0, 3, 6, 9] := by
  have h := (impulse_spacing_amended 4 9 (by norm_num)).2.1 ⟨3, rfl⟩
  rw [h, show List.range 4 = [0, 1, 2, 3] from rfl]
  norm_num

end Sentio
